import Mathlib

/-!
# Verification of an agar.io-style game backend

This development embeds the simulation core of the backend
(`src/vector.rs`, `src/player.rs`, `src/game_manager.rs`) into Lean.
The `f32` arithmetic of the source is modelled by real arithmetic, so the
numerical statements below are exact-arithmetic statements about the
algorithms; the random number generator is modelled by an abstract stream
of draws in `[0, 1)`, and outbound side effects (per-player notifications,
enqueued internal commands) are modelled as explicit event lists returned
by the state transitions.
-/

noncomputable section

namespace AgarIo

/-- The 2-D vector type of `src/vector.rs` (`Vector2D { x: f32, y: f32 }`). -/
structure Vector2D where
  x : ℝ
  y : ℝ

/-- Embeds `Vector2D::new`. -/
def Vector2D.new (x y : ℝ) : Vector2D := ⟨x, y⟩

/-- Componentwise addition (`impl ops::Add for Vector2D`). -/
instance : Add Vector2D := ⟨fun v w => ⟨v.x + w.x, v.y + w.y⟩⟩

/-- Componentwise subtraction (`impl ops::Sub for Vector2D`). -/
instance : Sub Vector2D := ⟨fun v w => ⟨v.x - w.x, v.y - w.y⟩⟩

/-- Scalar multiplication on the right (`impl ops::Mul<f32> for Vector2D`). -/
instance : HMul Vector2D ℝ Vector2D := ⟨fun v c => ⟨v.x * c, v.y * c⟩⟩

theorem Vector2D.add_def (v w : Vector2D) : v + w = ⟨v.x + w.x, v.y + w.y⟩ := rfl

theorem Vector2D.sub_def (v w : Vector2D) : v - w = ⟨v.x - w.x, v.y - w.y⟩ := rfl

theorem Vector2D.mul_def (v : Vector2D) (c : ℝ) : v * c = ⟨v.x * c, v.y * c⟩ := rfl

/-- Embeds `Vector2D::magnitude`: the Euclidean norm
`(self.x.powf(2.0) + self.y.powf(2.0)).sqrt()`. -/
def Vector2D.magnitude (v : Vector2D) : ℝ :=
  Real.sqrt (v.x ^ 2 + v.y ^ 2)

/-- Embeds `Vector2D::normalize`: returns the zero vector when the magnitude is
exactly zero, otherwise divides both components by the magnitude. -/
def Vector2D.normalize (v : Vector2D) : Vector2D :=
  if v.magnitude = 0 then Vector2D.new 0 0
  else { x := v.x / v.magnitude, y := v.y / v.magnitude }

/-- The player type of `src/player.rs`.  The `u32` id is modelled by `ℕ`. -/
structure Player where
  id : ℕ
  position : Vector2D
  radius : ℝ
  name : String

/-- Embeds `Player::new`: a fresh player sits at the origin with radius 10. -/
def Player.new (id : ℕ) (name : String) : Player :=
  { id := id, name := name, position := Vector2D.new 0 0, radius := 10 }

/-- Embeds `Player::mass`: `2.0 * self.radius.powf(2.0) * PI`. -/
def Player.mass (p : Player) : ℝ :=
  2 * p.radius ^ 2 * Real.pi

/-- Embeds `Player::radius_after_eat`: the mass-conserving merge radius
`sqrt((other.mass() + player.mass()) / (2 * PI))`. -/
def Player.radius_after_eat (player other : Player) : ℝ :=
  Real.sqrt ((other.mass + player.mass) / (2 * Real.pi))

/-- Embeds `Player::move_towards`: step of length `100 / sqrt(mass)` toward the
target, or a no-op when the target is closer than one step. -/
def Player.move_towards (p : Player) (position : Vector2D) : Player :=
  let velocity := 100 / Real.sqrt p.mass
  let difference := position - p.position
  if difference.magnitude < velocity then p
  else { p with position := p.position + difference.normalize * velocity }

/-- The per-tick speed `100 / sqrt(mass)` computed inside
`Player::move_towards`. -/
def Player.velocity (p : Player) : ℝ :=
  100 / Real.sqrt p.mass

/-- The food type of `src/game_manager.rs`. -/
structure Food where
  position : Vector2D
  radius : ℝ

end AgarIo

namespace AgarIo

/- ## Basic facts about the geometry primitive -/

theorem Vector2D.magnitude_nonneg (v : Vector2D) : 0 ≤ v.magnitude :=
  Real.sqrt_nonneg _

theorem Vector2D.magnitude_zero : (Vector2D.new 0 0).magnitude = 0 := by
  simp [Vector2D.magnitude, Vector2D.new]

theorem Vector2D.magnitude_sub_comm (v w : Vector2D) :
    (v - w).magnitude = (w - v).magnitude := by
  simp only [Vector2D.magnitude, Vector2D.sub_def]
  ring_nf

/-- Claim C9: `normalize()` of a vector of magnitude exactly zero is the zero
vector — a defined result (over ℝ there is no NaN to produce, and the division
by the magnitude is guarded by the zero test, hence unreachable at zero) — and
for every vector of nonzero magnitude it is the componentwise quotient by the
magnitude. -/
theorem normalize_of_zero_magnitude :
    (∀ v : Vector2D, v.magnitude = 0 → v.normalize = Vector2D.new 0 0) ∧
    (∀ v : Vector2D, v.magnitude ≠ 0 →
      v.normalize = { x := v.x / v.magnitude, y := v.y / v.magnitude }) ∧
    (Vector2D.new 0 0).magnitude = 0 := by
  refine ⟨fun v hv => ?_, fun v hv => ?_, Vector2D.magnitude_zero⟩
  · simp [Vector2D.normalize, hv]
  · simp [Vector2D.normalize, hv]

/-- Witness for C9: the zero vector itself has magnitude zero and normalizes
to the zero vector. -/
theorem normalize_of_zero_magnitude_witness :
    (Vector2D.new 0 0).magnitude = 0 ∧
    (Vector2D.new 0 0).normalize = Vector2D.new 0 0 :=
  ⟨Vector2D.magnitude_zero,
    normalize_of_zero_magnitude.1 (Vector2D.new 0 0) Vector2D.magnitude_zero⟩

/- ## Mass and the mass-conserving merge formula -/

/-- Embeds `GameManager::mass`: `2.0 * radius.powf(2.0) * PI` (the free-standing copy
used for player-vs-food merges in `src/game_manager.rs`). -/
def GameManager.mass (radius : ℝ) : ℝ :=
  2 * radius ^ 2 * Real.pi

/-- Embeds `GameManager::radius_after_eat`:
`sqrt((mass(radius2) + mass(radius1)) / (2 * PI))`. -/
def GameManager.radius_after_eat (radius1 radius2 : ℝ) : ℝ :=
  Real.sqrt ((GameManager.mass radius2 + GameManager.mass radius1) / (2 * Real.pi))

theorem GameManager.mass_nonneg (r : ℝ) : 0 ≤ GameManager.mass r := by
  unfold GameManager.mass
  have h := sq_nonneg r
  nlinarith [Real.pi_pos]

theorem Player.mass_eq (p : Player) : p.mass = GameManager.mass p.radius := rfl

theorem Player.mass_nonneg' (p : Player) : 0 ≤ p.mass :=
  GameManager.mass_nonneg p.radius

/-- The central algebraic fact: the merge radius carries exactly the sum of
the two input masses. -/
theorem GameManager.mass_radius_after_eat (r1 r2 : ℝ) :
    GameManager.mass (GameManager.radius_after_eat r1 r2)
      = GameManager.mass r1 + GameManager.mass r2 := by
  have hπ := Real.pi_pos
  have hsum : 0 ≤ (GameManager.mass r2 + GameManager.mass r1) / (2 * Real.pi) := by
    have h1 := GameManager.mass_nonneg r1
    have h2 := GameManager.mass_nonneg r2
    positivity
  unfold GameManager.mass GameManager.radius_after_eat
  rw [Real.sq_sqrt hsum]
  unfold GameManager.mass
  field_simp
  ring

theorem Player.radius_after_eat_eq (player other : Player) :
    Player.radius_after_eat player other
      = GameManager.radius_after_eat player.radius other.radius := rfl

/-- Claim C2: `radius_after_eat(r1, r2)` is `sqrt((mass r1 + mass r2) / (2π))`
and conserves mass exactly: `mass (radius_after_eat r1 r2) = mass r1 + mass r2`.
The player-level `Player::radius_after_eat` computes the same value on the two
players' radii. -/
theorem radius_after_eat_conserves_mass (r1 r2 : ℝ) (h1 : 0 ≤ r1) (h2 : 0 ≤ r2) :
    GameManager.radius_after_eat r1 r2
      = Real.sqrt ((GameManager.mass r1 + GameManager.mass r2) / (2 * Real.pi))
    ∧ GameManager.mass (GameManager.radius_after_eat r1 r2)
      = GameManager.mass r1 + GameManager.mass r2
    ∧ ∀ player other : Player,
        Player.radius_after_eat player other
          = GameManager.radius_after_eat player.radius other.radius := by
  refine ⟨?_, GameManager.mass_radius_after_eat r1 r2, fun player other => rfl⟩
  unfold GameManager.radius_after_eat
  rw [add_comm (GameManager.mass r2) (GameManager.mass r1)]

/-- Witness for C2 at `r1 = 1`, `r2 = 2`: mass of the merged radius is the sum
of the input masses. -/
theorem radius_after_eat_conserves_mass_witness :
    (0:ℝ) ≤ 1 ∧ (0:ℝ) ≤ 2 ∧
    GameManager.mass (GameManager.radius_after_eat 1 2)
      = GameManager.mass 1 + GameManager.mass 2 :=
  ⟨by norm_num, by norm_num,
    (radius_after_eat_conserves_mass 1 2 (by norm_num) (by norm_num)).2.1⟩

/- ## Movement -/

theorem Player.move_towards_radius (p : Player) (t : Vector2D) :
    (p.move_towards t).radius = p.radius := by
  simp only [Player.move_towards]
  split <;> rfl

theorem Player.move_towards_id (p : Player) (t : Vector2D) :
    (p.move_towards t).id = p.id := by
  simp only [Player.move_towards]
  split <;> rfl

theorem Player.move_towards_name (p : Player) (t : Vector2D) :
    (p.move_towards t).name = p.name := by
  simp only [Player.move_towards]
  split <;> rfl

theorem Player.move_towards_of_lt (p : Player) (t : Vector2D)
    (h : (t - p.position).magnitude < p.velocity) : p.move_towards t = p := by
  simp only [Player.move_towards]
  exact if_pos h

theorem Player.move_towards_of_ge (p : Player) (t : Vector2D)
    (h : ¬ (t - p.position).magnitude < p.velocity) :
    p.move_towards t
      = { p with position := p.position + (t - p.position).normalize * p.velocity } := by
  simp only [Player.move_towards]
  exact if_neg h

/-- Claim C5: `move_towards` moves with speed `v = 100 / sqrt(mass)`; a target
closer than one step leaves the position exactly unchanged, otherwise the
position advances by exactly `v` along the normalized direction to the target,
and no field other than the position ever changes. -/
theorem move_towards_spec (p : Player) (target : Vector2D) :
    p.velocity = 100 / Real.sqrt p.mass
    ∧ ((target - p.position).magnitude < p.velocity → p.move_towards target = p)
    ∧ (p.velocity ≤ (target - p.position).magnitude →
        p.move_towards target
          = { p with position :=
                p.position + (target - p.position).normalize * p.velocity })
    ∧ (p.move_towards target).id = p.id
    ∧ (p.move_towards target).radius = p.radius
    ∧ (p.move_towards target).name = p.name :=
  ⟨rfl, Player.move_towards_of_lt p target,
    fun h => Player.move_towards_of_ge p target (not_lt.mpr h),
    Player.move_towards_id p target, Player.move_towards_radius p target,
    Player.move_towards_name p target⟩

theorem Player.new_radius_pos (id : ℕ) (name : String) :
    0 < (Player.new id name).radius := by
  simp only [Player.new]
  norm_num

theorem Player.mass_pos (p : Player) (hr : 0 < p.radius) : 0 < p.mass := by
  simp only [Player.mass]
  have h2 : 0 < p.radius ^ 2 := pow_pos hr 2
  nlinarith [Real.pi_pos]

theorem Player.velocity_pos (p : Player) (hr : 0 < p.radius) : 0 < p.velocity := by
  simp only [Player.velocity]
  exact div_pos (by norm_num) (Real.sqrt_pos.mpr (Player.mass_pos p hr))

/-- Witness for C5: a fresh player already at its target does not move. -/
theorem move_towards_spec_witness :
    (Vector2D.new 0 0 - (Player.new 1 "a").position).magnitude
        < (Player.new 1 "a").velocity
    ∧ (Player.new 1 "a").move_towards (Vector2D.new 0 0) = Player.new 1 "a" := by
  have hmag : (Vector2D.new 0 0 - (Player.new 1 "a").position).magnitude = 0 := by
    simp [Player.new, Vector2D.sub_def, Vector2D.new, Vector2D.magnitude]
  have hv : 0 < (Player.new 1 "a").velocity :=
    Player.velocity_pos _ (Player.new_radius_pos 1 "a")
  have h : (Vector2D.new 0 0 - (Player.new 1 "a").position).magnitude
      < (Player.new 1 "a").velocity := by
    rw [hmag]; exact hv
  exact ⟨h, (move_towards_spec (Player.new 1 "a") (Vector2D.new 0 0)).2.1 h⟩

/- ## Repeated movement toward a fixed target -/

theorem Vector2D.ext_xy {v w : Vector2D} (hx : v.x = w.x) (hy : v.y = w.y) :
    v = w := by
  cases v
  cases w
  simp_all

theorem Vector2D.magnitude_mul_of_nonneg (a b c : ℝ) (hc : 0 ≤ c) :
    (Vector2D.mk (a * c) (b * c)).magnitude = (Vector2D.mk a b).magnitude * c := by
  simp only [Vector2D.magnitude]
  rw [show (a * c) ^ 2 + (b * c) ^ 2 = c ^ 2 * (a ^ 2 + b ^ 2) from by ring,
    Real.sqrt_mul (sq_nonneg c), Real.sqrt_sq hc]
  ring

/-- One non-degenerate movement step shortens the distance to the target by
exactly the per-tick speed. -/
theorem Player.move_towards_dist (p : Player) (t : Vector2D)
    (hv : 0 < p.velocity) (h : p.velocity ≤ (t - p.position).magnitude) :
    (t - (p.move_towards t).position).magnitude
      = (t - p.position).magnitude - p.velocity := by
  obtain ⟨tx, ty⟩ := t
  have hm0 : 0 < (Vector2D.mk tx ty - p.position).magnitude := lt_of_lt_of_le hv h
  have hmne : (Vector2D.mk tx ty - p.position).magnitude ≠ 0 := ne_of_gt hm0
  have hnorm : (Vector2D.mk tx ty - p.position).normalize
      = Vector2D.mk ((Vector2D.mk tx ty - p.position).x / (Vector2D.mk tx ty - p.position).magnitude)
          ((Vector2D.mk tx ty - p.position).y / (Vector2D.mk tx ty - p.position).magnitude) := by
    simp only [Vector2D.normalize, if_neg hmne]
  rw [Player.move_towards_of_ge p (Vector2D.mk tx ty) (not_lt.mpr h), hnorm]
  simp only [Vector2D.sub_def, Vector2D.add_def, Vector2D.mul_def] at *
  have hq : 0 ≤ ((Vector2D.mk (tx - p.position.x) (ty - p.position.y)).magnitude - p.velocity)
      / (Vector2D.mk (tx - p.position.x) (ty - p.position.y)).magnitude :=
    div_nonneg (by linarith) (le_of_lt hm0)
  have hA : tx - (p.position.x
        + (tx - p.position.x) / (Vector2D.mk (tx - p.position.x) (ty - p.position.y)).magnitude
          * p.velocity)
      = (tx - p.position.x)
        * (((Vector2D.mk (tx - p.position.x) (ty - p.position.y)).magnitude - p.velocity)
          / (Vector2D.mk (tx - p.position.x) (ty - p.position.y)).magnitude) := by
    field_simp
    ring
  have hB : ty - (p.position.y
        + (ty - p.position.y) / (Vector2D.mk (tx - p.position.x) (ty - p.position.y)).magnitude
          * p.velocity)
      = (ty - p.position.y)
        * (((Vector2D.mk (tx - p.position.x) (ty - p.position.y)).magnitude - p.velocity)
          / (Vector2D.mk (tx - p.position.x) (ty - p.position.y)).magnitude) := by
    field_simp
    ring
  rw [hA, hB, Vector2D.magnitude_mul_of_nonneg _ _ _ hq]
  field_simp

/-- Repeated application of `Player::move_towards` with a fixed target: the
position sequence of the end-to-end movement scenarios. -/
def iterate_move (p : Player) (target : Vector2D) : ℕ → Player
  | 0 => p
  | n + 1 => (iterate_move p target n).move_towards target

theorem iterate_move_radius (p : Player) (t : Vector2D) (n : ℕ) :
    (iterate_move p t n).radius = p.radius := by
  induction n with
  | zero => rfl
  | succ n ih => rw [iterate_move, Player.move_towards_radius, ih]

theorem iterate_move_velocity (p : Player) (t : Vector2D) (n : ℕ) :
    (iterate_move p t n).velocity = p.velocity := by
  simp only [Player.velocity, Player.mass, iterate_move_radius]

theorem iterate_move_converges (p : Player) (t : Vector2D) (hv : 0 < p.velocity) :
    ∃ n, (t - (iterate_move p t n).position).magnitude < p.velocity := by
  by_contra hc
  push_neg at hc
  have hstep : ∀ n, (t - (iterate_move p t (n + 1)).position).magnitude
      = (t - (iterate_move p t n).position).magnitude - p.velocity := by
    intro n
    have hv' : 0 < (iterate_move p t n).velocity := by
      rw [iterate_move_velocity]; exact hv
    have h' : (iterate_move p t n).velocity ≤ (t - (iterate_move p t n).position).magnitude := by
      rw [iterate_move_velocity]; exact hc n
    have hd := Player.move_towards_dist (iterate_move p t n) t hv' h'
    rw [iterate_move_velocity] at hd
    rw [iterate_move]
    exact hd
  have hformula : ∀ n : ℕ, (t - (iterate_move p t n).position).magnitude
      = (t - p.position).magnitude - n * p.velocity := by
    intro n
    induction n with
    | zero => simp [iterate_move]
    | succ n ih =>
      rw [hstep n, ih]
      push_cast
      ring
  obtain ⟨n, hn⟩ := exists_nat_gt ((t - p.position).magnitude / p.velocity)
  have h1 : (t - p.position).magnitude < n * p.velocity := (div_lt_iff hv).mp hn
  have h2 := hc n
  rw [hformula n] at h2
  linarith

theorem move_east_step (q : Player) (hv : 0 < q.velocity)
    (hy : q.position.y = 0) (hx : q.position.x ≤ 1000) :
    (q.move_towards (Vector2D.new 1000 0)).position.y = 0
    ∧ q.position.x ≤ (q.move_towards (Vector2D.new 1000 0)).position.x
    ∧ (q.move_towards (Vector2D.new 1000 0)).position.x ≤ 1000 := by
  have hd : (Vector2D.new 1000 0 - q.position).x = 1000 - q.position.x := by
    simp [Vector2D.sub_def, Vector2D.new]
  have hd' : (Vector2D.new 1000 0 - q.position).y = 0 := by
    simp [Vector2D.sub_def, Vector2D.new, hy]
  have hmag : (Vector2D.new 1000 0 - q.position).magnitude = 1000 - q.position.x := by
    simp only [Vector2D.magnitude, hd, hd']
    rw [show (1000 - q.position.x) ^ 2 + (0:ℝ) ^ 2 = (1000 - q.position.x) ^ 2 from by ring,
      Real.sqrt_sq (by linarith)]
  by_cases hcase : (Vector2D.new 1000 0 - q.position).magnitude < q.velocity
  · rw [Player.move_towards_of_lt q _ hcase]
    exact ⟨hy, le_refl _, hx⟩
  · have hge : q.velocity ≤ 1000 - q.position.x := by
      rw [← hmag]; exact not_lt.mp hcase
    have hm0 : (0:ℝ) < 1000 - q.position.x := lt_of_lt_of_le hv hge
    have hmne : (Vector2D.new 1000 0 - q.position).magnitude ≠ 0 := by
      rw [hmag]; exact ne_of_gt hm0
    have hnorm : (Vector2D.new 1000 0 - q.position).normalize = Vector2D.mk 1 0 := by
      simp only [Vector2D.normalize, if_neg hmne]
      apply Vector2D.ext_xy
      · show (Vector2D.new 1000 0 - q.position).x / (Vector2D.new 1000 0 - q.position).magnitude = 1
        rw [hmag, hd]
        exact div_self (ne_of_gt hm0)
      · show (Vector2D.new 1000 0 - q.position).y / (Vector2D.new 1000 0 - q.position).magnitude = 0
        rw [hd']
        simp
    rw [Player.move_towards_of_ge q _ hcase, hnorm]
    refine ⟨?_, ?_, ?_⟩
    · show (q.position + Vector2D.mk 1 0 * q.velocity).y = 0
      simp [Vector2D.add_def, Vector2D.mul_def, hy]
    · show q.position.x ≤ (q.position + Vector2D.mk 1 0 * q.velocity).x
      simp only [Vector2D.add_def, Vector2D.mul_def]
      linarith
    · show (q.position + Vector2D.mk 1 0 * q.velocity).x ≤ 1000
      simp only [Vector2D.add_def, Vector2D.mul_def]
      have : q.position.x + 1 * q.velocity ≤ 1000 := by linarith
      simpa using this

theorem iterate_move_east (q : Player) (hv : 0 < q.velocity)
    (hy : q.position.y = 0) (hx : q.position.x ≤ 1000) (n : ℕ) :
    (iterate_move q (Vector2D.new 1000 0) n).position.y = 0
    ∧ (iterate_move q (Vector2D.new 1000 0) n).position.x ≤ 1000 := by
  induction n with
  | zero => exact ⟨hy, hx⟩
  | succ n ih =>
    have hv' : 0 < (iterate_move q (Vector2D.new 1000 0) n).velocity := by
      rw [iterate_move_velocity]; exact hv
    have hs := move_east_step (iterate_move q (Vector2D.new 1000 0) n) hv' ih.1 ih.2
    rw [iterate_move]
    exact ⟨hs.1, hs.2.2⟩

/-- Claim C6: for a player of positive radius repeatedly moving toward a fixed
target, the distance to the target drops below one step-length `v` after
finitely many steps, never increases along the way (no overshoot: once within
one step the iteration is a fixed point), and in the concrete scenario of a
player starting at the origin moving toward `(1000, 0)`, the x-coordinate is
monotonically nondecreasing and never exceeds 1000. -/
theorem movement_termination (p : Player) (target : Vector2D) (hr : 0 < p.radius) :
    (∃ n, (target - (iterate_move p target n).position).magnitude < p.velocity)
    ∧ (∀ n, (target - (iterate_move p target (n + 1)).position).magnitude
        ≤ (target - (iterate_move p target n).position).magnitude)
    ∧ (∀ n, (target - (iterate_move p target n).position).magnitude < p.velocity →
        iterate_move p target (n + 1) = iterate_move p target n)
    ∧ (∀ q : Player, 0 < q.radius → q.position = Vector2D.new 0 0 →
        ∀ n, (iterate_move q (Vector2D.new 1000 0) n).position.x
            ≤ (iterate_move q (Vector2D.new 1000 0) (n + 1)).position.x
          ∧ (iterate_move q (Vector2D.new 1000 0) n).position.x ≤ 1000) := by
  have hv : 0 < p.velocity := Player.velocity_pos p hr
  refine ⟨iterate_move_converges p target hv, ?_, ?_, ?_⟩
  · intro n
    by_cases hcase : (target - (iterate_move p target n).position).magnitude
        < (iterate_move p target n).velocity
    · rw [iterate_move, Player.move_towards_of_lt _ _ hcase]
    · have hv' : 0 < (iterate_move p target n).velocity := by
        rw [iterate_move_velocity]; exact hv
      have hd := Player.move_towards_dist _ target hv' (not_lt.mp hcase)
      rw [iterate_move, hd, iterate_move_velocity]
      linarith
  · intro n hlt
    rw [iterate_move]
    apply Player.move_towards_of_lt
    rw [iterate_move_velocity]
    exact hlt
  · intro q hqr hqpos n
    have hqv : 0 < q.velocity := Player.velocity_pos q hqr
    have hy0 : q.position.y = 0 := by rw [hqpos]; simp [Vector2D.new]
    have hx0 : q.position.x ≤ 1000 := by rw [hqpos]; norm_num [Vector2D.new]
    have hinv := iterate_move_east q hqv hy0 hx0 n
    have hv' : 0 < (iterate_move q (Vector2D.new 1000 0) n).velocity := by
      rw [iterate_move_velocity]; exact hqv
    have hs := move_east_step (iterate_move q (Vector2D.new 1000 0) n) hv' hinv.1 hinv.2
    refine ⟨?_, hinv.2⟩
    rw [iterate_move]
    exact hs.2.1

/-- Witness for C6: a fresh player (radius 10) at the origin moving toward
`(1000, 0)` has a nondecreasing and bounded x-coordinate on the first step. -/
theorem movement_termination_witness :
    0 < (Player.new 1 "a").radius
    ∧ (iterate_move (Player.new 1 "a") (Vector2D.new 1000 0) 0).position.x
        ≤ (iterate_move (Player.new 1 "a") (Vector2D.new 1000 0) 1).position.x
    ∧ (iterate_move (Player.new 1 "a") (Vector2D.new 1000 0) 0).position.x ≤ 1000 := by
  have h := (movement_termination (Player.new 1 "a") (Vector2D.new 1000 0)
      (Player.new_radius_pos 1 "a")).2.2.2 (Player.new 1 "a")
      (Player.new_radius_pos 1 "a") rfl 0
  exact ⟨Player.new_radius_pos 1 "a", h.1, h.2⟩

/- ## The game-state manager -/

/-- The internal command vocabulary of `src/game_manager.rs`. -/
inductive InternalCommand where
  | update
  | addPlayer (id : ℕ) (name : String)
  | removePlayer (id : ℕ)
deriving DecidableEq

/-- The outbound message vocabulary of `src/game_manager.rs`
(the `State` payload is not needed by any claim and is omitted from the
constructor to keep the message type first-order). -/
inductive MessageToClient where
  | joinSuccess (id : ℕ)
  | playerEaten (id : ℕ)
  | stateSnapshot
deriving DecidableEq

/-- Observable side effects of a state transition, in program order:
a player being dropped from the live `players` collection, and a message
being handed to `send_message_to_player` for a given id. -/
inductive Effect where
  | droppedFromPlayers (id : ℕ)
  | sentToPlayer (id : ℕ) (message : MessageToClient)
deriving DecidableEq

/-- The authoritative world state held by `GameManager`: the live players and
the food.  Channels and sockets are external collaborators; the side effects
reaching them are modelled as explicit event lists. -/
structure GameManager where
  players : List Player
  food : List Food

/-- Embeds `GameManager::remove_player`: retain all players with a different id,
then send `PlayerEaten { id }` to the removed id.  The returned event list is
in program order. -/
def GameManager.remove_player (s : GameManager) (id : ℕ) :
    GameManager × List Effect :=
  ({ s with players := s.players.filter (fun player => player.id != id) },
    [Effect.droppedFromPlayers id,
      Effect.sentToPlayer id (MessageToClient.playerEaten id)])

/-- The body of `GameManager::move_player`: walk the player list and apply
`move_towards` to the first player with the given id; if no player matches,
nothing happens. -/
def move_player_go (id : ℕ) (position : Vector2D) : List Player → List Player
  | [] => []
  | player :: rest =>
    if player.id = id then player.move_towards position :: rest
    else player :: move_player_go id position rest

/-- Embeds `GameManager::move_player`. -/
def GameManager.move_player (s : GameManager) (id : ℕ) (position : Vector2D) :
    GameManager :=
  { s with players := move_player_go id position s.players }

/-- One iteration of the doubly nested loop of `GameManager::check_collision`,
at outer index `i` and inner index `j`: skip self-pairs (equal ids) and
non-overlapping pairs; otherwise the strictly larger player takes the merged
radius and the other is zeroed (the player at index `i` loses ties). -/
def collide_step (ps : List Player) (i j : ℕ) : List Player :=
  if hij : i < ps.length ∧ j < ps.length then
    let player := ps.get ⟨i, hij.1⟩
    let other_player := ps.get ⟨j, hij.2⟩
    if player.id ≠ other_player.id then
      if (player.position - other_player.position).magnitude
          < player.radius + other_player.radius then
        let radius_after := Player.radius_after_eat player other_player
        if player.radius > other_player.radius then
          (ps.set i { player with radius := radius_after }).set j
            { other_player with radius := 0 }
        else
          (ps.set j { other_player with radius := radius_after }).set i
            { player with radius := 0 }
      else ps
    else ps
  else ps

/-- Embeds `GameManager::check_collision`: the full `for i in 0..len, for j in 0..len`
pairwise scan (the length is unchanged by every iteration, so sampling it once
is faithful to the source, which re-reads `self.players.len()`). -/
def check_collision (ps : List Player) : List Player :=
  (List.range ps.length).foldl
    (fun acc i => (List.range ps.length).foldl
      (fun acc2 j => collide_step acc2 i j) acc) ps

/-- One iteration of the nested loop of `GameManager::check_food_collision` at
player index `i` and food index `j`: on overlap the player's radius becomes the
merged radius and the food item is removed in place. -/
def food_step (i j : ℕ) (s : GameManager) : GameManager :=
  if hij : i < s.players.length ∧ j < s.food.length then
    let player := s.players.get ⟨i, hij.1⟩
    let food := s.food.get ⟨j, hij.2⟩
    if (player.position - food.position).magnitude < player.radius + food.radius then
      { players := s.players.set i
          { player with radius := GameManager.radius_after_eat player.radius food.radius },
        food := s.food.eraseIdx j }
    else s
  else s

/-- The inner `for j in (0..self.food.len()).rev()` loop of
`check_food_collision` for a fixed player index `i`; the food length is
sampled at loop entry, exactly as in the source. -/
def food_inner (i : ℕ) (s : GameManager) : GameManager :=
  (List.range s.food.length).reverse.foldl (fun acc j => food_step i j acc) s

/-- Embeds `GameManager::check_food_collision`: the outer
`for i in (0..self.players.len()).rev()` loop (the player count is unchanged
by every iteration, so sampling it once is faithful to the source). -/
def check_food_collision (s : GameManager) : GameManager :=
  (List.range s.players.length).reverse.foldl (fun acc i => food_inner i acc) s

/-- The body of `GameManager::remove_dead_players`: for each player with
radius at most 0.01, in list order, a `RemovePlayer { id }` command is
enqueued onto the shared command intake. -/
def dead_player_commands : List Player → List InternalCommand
  | [] => []
  | player :: rest =>
    if player.radius ≤ 0.01 then
      InternalCommand.removePlayer player.id :: dead_player_commands rest
    else dead_player_commands rest

/-- Embeds `GameManager::remove_dead_players` takes `&self`: the state is returned
untouched together with the enqueued commands. -/
def GameManager.remove_dead_players (s : GameManager) :
    GameManager × List InternalCommand :=
  (s, dead_player_commands s.players)

/-- Embeds `rng.gen_range(lo..hi)` modelled from one uniform draw `u ∈ [0, 1)`. -/
def gen_range (u lo hi : ℝ) : ℝ :=
  lo + u * (hi - lo)

/-- Embeds `GameManager::generate_food`: each food item consumes three draws from the
random stream `rng` starting at index `k` — a radius in `[2, 6)`, then a
position inside the 800×600 arena inset by that radius. -/
def generate_food (rng : ℕ → ℝ) : ℕ → ℕ → List Food
  | _, 0 => []
  | k, amount + 1 =>
    let radius := gen_range (rng k) 2 6
    let x := gen_range (rng (k + 1)) radius (800 - radius)
    let y := gen_range (rng (k + 2)) radius (600 - radius)
    { position := Vector2D.new x y, radius := radius }
      :: generate_food rng (k + 3) amount

/-- Embeds `GameManager::check_food`: if fewer than 50 food items remain, extend the
collection with exactly `50 - food.len()` freshly generated items. -/
def check_food (rng : ℕ → ℝ) (k : ℕ) (s : GameManager) : GameManager :=
  if s.food.length < 50 then
    { s with food := s.food ++ generate_food rng k (50 - s.food.length) }
  else s

/-- Embeds `GameManager::update`: player collisions, then food collisions, then the
dead-player reap (which only enqueues commands), then food replenishment.
Returns the new state together with the commands enqueued by the reap. -/
def GameManager.update (rng : ℕ → ℝ) (s : GameManager) :
    GameManager × List InternalCommand :=
  let s1 : GameManager := { s with players := check_collision s.players }
  let s2 := check_food_collision s1
  let reaped := s2.remove_dead_players
  let s3 := check_food rng 0 reaped.1
  (s3, reaped.2)

/- ## Unknown-id movement commands (C7) -/

theorem move_player_go_of_absent (id : ℕ) (position : Vector2D)
    (ps : List Player) (h : ∀ p ∈ ps, p.id ≠ id) :
    move_player_go id position ps = ps := by
  induction ps with
  | nil => rfl
  | cons p rest ih =>
    rw [move_player_go, if_neg (h p (by simp))]
    rw [ih (fun q hq => h q (by simp [hq]))]

/-- Claim C7: a `Move` command whose id matches no live player leaves the
whole world state unchanged; the transition is a total function, so no error
can be raised. -/
theorem move_unknown_id_noop (s : GameManager) (id : ℕ) (position : Vector2D)
    (h : ∀ p ∈ s.players, p.id ≠ id) :
    s.move_player id position = s := by
  unfold GameManager.move_player
  rw [move_player_go_of_absent id position s.players h]

/-- Witness for C7: a one-player world ignores a move command for id 2. -/
theorem move_unknown_id_noop_witness :
    (∀ p ∈ (GameManager.mk [Player.new 1 "a"] []).players, p.id ≠ 2)
    ∧ (GameManager.mk [Player.new 1 "a"] []).move_player 2 (Vector2D.new 5 5)
        = GameManager.mk [Player.new 1 "a"] [] := by
  have h : ∀ p ∈ (GameManager.mk [Player.new 1 "a"] []).players, p.id ≠ 2 := by
    intro p hp
    simp only [List.mem_singleton] at hp
    rw [hp]
    simp [Player.new]
  exact ⟨h, move_unknown_id_noop _ 2 _ h⟩

/- ## Notification order on RemovePlayer (C3) -/

/-- The ordering the spec asserts for `RemovePlayer`: the `PlayerEaten`
notification occurs strictly before the drop from the live collection. -/
def sent_before_dropped (t : List Effect) (id : ℕ) : Prop :=
  List.Sublist
    [Effect.sentToPlayer id (MessageToClient.playerEaten id),
      Effect.droppedFromPlayers id] t

/-- Counterexample to C3 as stated: in a one-player world, processing
`RemovePlayer { id := 1 }` drops the player from the live collection first and
sends `PlayerEaten` second, so the notification does not precede the drop. -/
theorem remove_player_notify_order_counterexample :
    ¬ sent_before_dropped
        ((GameManager.mk [Player.new 1 "a"] []).remove_player 1).2 1 := by
  intro h
  have ht : ((GameManager.mk [Player.new 1 "a"] []).remove_player 1).2
      = [Effect.droppedFromPlayers 1,
          Effect.sentToPlayer 1 (MessageToClient.playerEaten 1)] := rfl
  rw [sent_before_dropped, ht] at h
  have heq := h.eq_of_length (by simp)
  simp at heq

/-- Claim C3 (amended): processing `RemovePlayer { id }` first drops the
player from the live collection (`retain` keeps exactly the players with a
different id) and only then sends the `PlayerEaten { id }` notification; the
notification is addressed by id through the separate socket map, which the
transition does not touch. -/
theorem remove_player_order (s : GameManager) (id : ℕ) :
    (s.remove_player id).1.players = s.players.filter (fun p => p.id != id)
    ∧ (s.remove_player id).1.food = s.food
    ∧ (s.remove_player id).2
        = [Effect.droppedFromPlayers id,
            Effect.sentToPlayer id (MessageToClient.playerEaten id)]
    ∧ ∀ p : Player, p ∈ (s.remove_player id).1.players ↔ p ∈ s.players ∧ p.id ≠ id := by
  refine ⟨rfl, rfl, rfl, fun p => ?_⟩
  simp [GameManager.remove_player, List.mem_filter]

/- ## The dead-player reap never mutates state (C8) -/

theorem dead_player_commands_eq (ps : List Player) :
    dead_player_commands ps
      = (ps.filter (fun p => decide (p.radius ≤ 0.01))).map
          (fun p => InternalCommand.removePlayer p.id) := by
  induction ps with
  | nil => rfl
  | cons p rest ih =>
    by_cases h : p.radius ≤ 0.01
    · rw [dead_player_commands, if_pos h]
      simp [List.filter_cons, h, ih]
    · rw [dead_player_commands, if_neg h]
      simp [List.filter_cons, h, ih]

theorem check_food_players (rng : ℕ → ℝ) (k : ℕ) (s : GameManager) :
    (check_food rng k s).players = s.players := by
  unfold check_food
  split <;> rfl

/-- Claim C8: the reap step returns the state unchanged and merely enqueues a
`RemovePlayer` command for every player with radius ≤ 0.01 (in list order);
consequently the player list produced by a whole `Update` tick is the one left
by the two collision passes — a dead player is still in the live collection
when the tick ends. -/
theorem remove_dead_players_pure (s : GameManager) (rng : ℕ → ℝ) :
    s.remove_dead_players.1 = s
    ∧ s.remove_dead_players.2
        = (s.players.filter (fun p => decide (p.radius ≤ 0.01))).map
            (fun p => InternalCommand.removePlayer p.id)
    ∧ (GameManager.update rng s).1.players
        = (check_food_collision { s with players := check_collision s.players }).players
    ∧ ∀ p ∈ (check_food_collision
          { s with players := check_collision s.players }).players,
        p.radius ≤ 0.01 → p ∈ (GameManager.update rng s).1.players := by
  have hupd : (GameManager.update rng s).1
      = check_food rng 0 (check_food_collision
          { s with players := check_collision s.players }) := rfl
  refine ⟨rfl, dead_player_commands_eq s.players, ?_, ?_⟩
  · rw [hupd, check_food_players]
  · intro p hp _
    rw [hupd, check_food_players]
    exact hp

/-- Witness for C8: in a concrete one-player world with a dead player, the
reap leaves the state untouched. -/
theorem remove_dead_players_pure_witness :
    (GameManager.mk [{ Player.new 1 "a" with radius := 0 }] []).remove_dead_players.1
      = GameManager.mk [{ Player.new 1 "a" with radius := 0 }] [] :=
  (remove_dead_players_pure (GameManager.mk [{ Player.new 1 "a" with radius := 0 }] [])
    (fun _ => 0)).1

/- ## Food replenishment (C4) -/

theorem generate_food_length (rng : ℕ → ℝ) :
    ∀ k n, (generate_food rng k n).length = n := by
  intro k n
  induction n generalizing k with
  | zero => rfl
  | succ n ih => simp [generate_food, ih]

theorem gen_range_mem (u lo hi : ℝ) (hu0 : 0 ≤ u) (hu1 : u < 1) (h : lo < hi) :
    lo ≤ gen_range u lo hi ∧ gen_range u lo hi < hi := by
  unfold gen_range
  constructor
  · nlinarith
  · nlinarith

theorem generate_food_mem (rng : ℕ → ℝ) (hrng : ∀ n, 0 ≤ rng n ∧ rng n < 1) :
    ∀ k n, ∀ f ∈ generate_food rng k n,
      2 ≤ f.radius ∧ f.radius < 6
      ∧ f.radius ≤ f.position.x ∧ f.position.x < 800 - f.radius
      ∧ f.radius ≤ f.position.y ∧ f.position.y < 600 - f.radius := by
  intro k n
  induction n generalizing k with
  | zero => intro f hf; simp [generate_food] at hf
  | succ n ih =>
    intro f hf
    simp only [generate_food, List.mem_cons] at hf
    rcases hf with hf | hf
    · subst hf
      obtain ⟨h0, h1⟩ := hrng k
      obtain ⟨h0x, h1x⟩ := hrng (k + 1)
      obtain ⟨h0y, h1y⟩ := hrng (k + 2)
      have hr := gen_range_mem (rng k) 2 6 h0 h1 (by norm_num)
      have hltx : gen_range (rng k) 2 6 < 800 - gen_range (rng k) 2 6 := by
        nlinarith [hr.1, hr.2]
      have hlty : gen_range (rng k) 2 6 < 600 - gen_range (rng k) 2 6 := by
        nlinarith [hr.1, hr.2]
      have hx := gen_range_mem (rng (k + 1)) _ _ h0x h1x hltx
      have hy := gen_range_mem (rng (k + 2)) _ _ h0y h1y hlty
      exact ⟨hr.1, hr.2, hx.1, hx.2, hy.1, hy.2⟩
    · exact ih (k + 3) f hf

theorem check_food_length (rng : ℕ → ℝ) (k : ℕ) (s : GameManager) :
    (check_food rng k s).food.length = max s.food.length 50 := by
  by_cases h : s.food.length < 50
  · rw [check_food, if_pos h]
    simp only [List.length_append, generate_food_length]
    omega
  · rw [check_food, if_neg h]
    omega

/-- Claim C4: after any `Update` the food collection holds at least 50 items;
the replenishment step tops a short collection up to exactly 50 by appending
exactly `50 - len` new items, each with radius in `[2, 6)` and position inside
the 800×600 arena inset by its own radius. -/
theorem food_floor_invariant (rng : ℕ → ℝ) (s : GameManager)
    (hrng : ∀ n, 0 ≤ rng n ∧ rng n < 1) :
    50 ≤ (GameManager.update rng s).1.food.length
    ∧ (∀ t : GameManager, (check_food rng 0 t).food.length = max t.food.length 50)
    ∧ (∀ t : GameManager, t.food.length < 50 →
        (check_food rng 0 t).food
          = t.food ++ generate_food rng 0 (50 - t.food.length))
    ∧ (∀ k n, (generate_food rng k n).length = n)
    ∧ (∀ k n, ∀ f ∈ generate_food rng k n,
        2 ≤ f.radius ∧ f.radius < 6
        ∧ f.radius ≤ f.position.x ∧ f.position.x < 800 - f.radius
        ∧ f.radius ≤ f.position.y ∧ f.position.y < 600 - f.radius) := by
  refine ⟨?_, fun t => check_food_length rng 0 t, ?_, generate_food_length rng,
    generate_food_mem rng hrng⟩
  · have hupd : (GameManager.update rng s).1
        = check_food rng 0 (check_food_collision
            { s with players := check_collision s.players }) := rfl
    rw [hupd, check_food_length]
    omega
  · intro t ht
    rw [check_food, if_pos ht]

/-- Witness for C4: the constant-zero stream is a valid random stream and one
update of the empty world restores the food floor. -/
theorem food_floor_invariant_witness :
    ((0:ℝ) ≤ 0 ∧ (0:ℝ) < 1)
    ∧ 50 ≤ (GameManager.update (fun _ => 0) (GameManager.mk [] [])).1.food.length :=
  ⟨⟨le_refl 0, by norm_num⟩,
    (food_floor_invariant (fun _ => 0) (GameManager.mk [] [])
      (fun _ => ⟨le_refl 0, by norm_num⟩)).1⟩

/- ## Mass conservation of the collision pass (C10) -/

/-- Total derived mass of a list of players. -/
def total_mass (ps : List Player) : ℝ :=
  (ps.map Player.mass).sum

theorem total_mass_nil : total_mass [] = 0 := rfl

theorem total_mass_cons (p : Player) (l : List Player) :
    total_mass (p :: l) = p.mass + total_mass l := by
  simp [total_mass]

theorem total_mass_set : ∀ (ps : List Player) (n : ℕ) (a : Player)
    (hn : n < ps.length),
    total_mass (ps.set n a) = total_mass ps + a.mass - (ps.get ⟨n, hn⟩).mass := by
  intro ps
  induction ps with
  | nil => intro n a hn; simp at hn
  | cons p rest ih =>
    intro n a hn
    cases n with
    | zero =>
      show total_mass (a :: rest) = total_mass (p :: rest) + a.mass - p.mass
      rw [total_mass_cons, total_mass_cons]
      ring
    | succ n =>
      have hn' : n < rest.length := Nat.lt_of_succ_lt_succ hn
      show total_mass (p :: rest.set n a)
        = total_mass (p :: rest) + a.mass - (rest.get ⟨n, hn'⟩).mass
      rw [total_mass_cons, total_mass_cons, ih n a hn']
      ring

theorem mass_set_radius (q : Player) (r : ℝ) :
    ({ q with radius := r } : Player).mass = GameManager.mass r := rfl

theorem mass_set_radius_zero (q : Player) :
    ({ q with radius := 0 } : Player).mass = 0 := by
  rw [mass_set_radius]
  simp [GameManager.mass]

theorem mass_set_radius_after_eat (q player other : Player) :
    ({ q with radius := Player.radius_after_eat player other } : Player).mass
      = player.mass + other.mass := by
  rw [mass_set_radius, Player.radius_after_eat_eq, GameManager.mass_radius_after_eat]
  rfl

theorem collide_step_total_mass (ps : List Player) (i j : ℕ) :
    total_mass (collide_step ps i j) = total_mass ps := by
  by_cases hij : i < ps.length ∧ j < ps.length
  · simp only [collide_step, dif_pos hij]
    by_cases hid : (ps.get ⟨i, hij.1⟩).id ≠ (ps.get ⟨j, hij.2⟩).id
    · rw [if_pos hid]
      by_cases hdist : ((ps.get ⟨i, hij.1⟩).position - (ps.get ⟨j, hij.2⟩).position).magnitude
          < (ps.get ⟨i, hij.1⟩).radius + (ps.get ⟨j, hij.2⟩).radius
      · rw [if_pos hdist]
        have hne : i ≠ j := by
          intro hcontra
          subst hcontra
          exact hid rfl
        by_cases hgt : (ps.get ⟨i, hij.1⟩).radius > (ps.get ⟨j, hij.2⟩).radius
        · rw [if_pos hgt]
          have hj' : j < (ps.set i { ps.get ⟨i, hij.1⟩ with
              radius := Player.radius_after_eat (ps.get ⟨i, hij.1⟩) (ps.get ⟨j, hij.2⟩) }).length := by
            simpa using hij.2
          rw [total_mass_set _ j _ hj', total_mass_set ps i _ hij.1]
          have hget : (ps.set i { ps.get ⟨i, hij.1⟩ with
              radius := Player.radius_after_eat (ps.get ⟨i, hij.1⟩) (ps.get ⟨j, hij.2⟩) }).get ⟨j, hj'⟩
              = ps.get ⟨j, hij.2⟩ := by
            simp only [List.get_eq_getElem]
            exact List.getElem_set_ne hne hj'
          rw [hget, mass_set_radius_after_eat, mass_set_radius_zero]
          ring
        · rw [if_neg hgt]
          have hi' : i < (ps.set j { ps.get ⟨j, hij.2⟩ with
              radius := Player.radius_after_eat (ps.get ⟨i, hij.1⟩) (ps.get ⟨j, hij.2⟩) }).length := by
            simpa using hij.1
          rw [total_mass_set _ i _ hi', total_mass_set ps j _ hij.2]
          have hget : (ps.set j { ps.get ⟨j, hij.2⟩ with
              radius := Player.radius_after_eat (ps.get ⟨i, hij.1⟩) (ps.get ⟨j, hij.2⟩) }).get ⟨i, hi'⟩
              = ps.get ⟨i, hij.1⟩ := by
            simp only [List.get_eq_getElem]
            exact List.getElem_set_ne (Ne.symm hne) hi'
          rw [hget, mass_set_radius_after_eat, mass_set_radius_zero]
          ring
      · rw [if_neg hdist]
    · rw [if_neg hid]
  · simp only [collide_step, dif_neg hij]

theorem foldl_total_mass (f : List Player → ℕ → List Player)
    (hf : ∀ s x, total_mass (f s x) = total_mass s) :
    ∀ (l : List ℕ) (s : List Player), total_mass (l.foldl f s) = total_mass s := by
  intro l
  induction l with
  | nil => intro s; rfl
  | cons x xs ih =>
    intro s
    rw [List.foldl_cons, ih, hf]

theorem check_collision_total_mass (ps : List Player) :
    total_mass (check_collision ps) = total_mass ps := by
  unfold check_collision
  exact foldl_total_mass _
    (fun s i => foldl_total_mass _ (fun s2 j => collide_step_total_mass s2 i j) _ s)
    (List.range ps.length) ps

/-- Claim C10: `check_collision` conserves the total derived mass of the
player list: every resolved collision moves the loser's whole mass onto the
winner and zeroes the loser, and every skipped or re-evaluated pair changes
nothing, so the sum of `mass(radius)` over all players is unchanged. -/
theorem check_collision_conserves_mass (ps : List Player)
    (hids : ps.Pairwise (fun p q => p.id ≠ q.id)) :
    total_mass (check_collision ps) = total_mass ps :=
  check_collision_total_mass ps

/-- Witness for C10: a concrete two-player list with distinct ids. -/
theorem check_collision_conserves_mass_witness :
    List.Pairwise (fun p q : Player => p.id ≠ q.id)
      [Player.new 1 "a", Player.new 2 "b"]
    ∧ total_mass (check_collision [Player.new 1 "a", Player.new 2 "b"])
        = total_mass [Player.new 1 "a", Player.new 2 "b"] := by
  have h : List.Pairwise (fun p q : Player => p.id ≠ q.id)
      [Player.new 1 "a", Player.new 2 "b"] := by
    simp [Player.new]
  exact ⟨h, check_collision_conserves_mass _ h⟩

/- ## Equal-radius tiebreak (C1) -/

theorem collide_step_same (ps : List Player) (i : ℕ) : collide_step ps i i = ps := by
  by_cases h : i < ps.length ∧ i < ps.length
  · simp only [collide_step, dif_pos h]
    rw [if_neg (fun hne => hne rfl)]
  · simp only [collide_step, dif_neg h]

/-- Eating a zero-radius entity leaves the eater's radius unchanged. -/
theorem radius_after_eat_absorb_zero (p q : Player) (hq : q.radius = 0)
    (hp : 0 ≤ p.radius) :
    Player.radius_after_eat p q = p.radius := by
  unfold Player.radius_after_eat Player.mass
  rw [hq]
  have harg : (2 * (0:ℝ) ^ 2 * Real.pi + 2 * p.radius ^ 2 * Real.pi) / (2 * Real.pi)
      = p.radius ^ 2 := by
    field_simp
    ring
  rw [harg, Real.sqrt_sq hp]

/-- Claim C1: two distinct overlapping players of exactly equal radius resolve
deterministically — the player evaluated as `player` in the first colliding
pair, for which `player.radius > other_player.radius` is false, ends with
radius exactly 0 and the other ends with the full mass-conserving merged
radius `sqrt(2) * r`.  Determinism across repeated runs is definitional here:
`check_collision` is a pure function of the player list. -/
theorem equal_radius_tiebreak (a b : Player) (hid : a.id ≠ b.id)
    (heq : a.radius = b.radius)
    (hover : (a.position - b.position).magnitude < a.radius + b.radius) :
    check_collision [a, b]
      = [{ a with radius := 0 },
          { b with radius := Player.radius_after_eat a b }]
    ∧ Player.radius_after_eat a b = Real.sqrt 2 * b.radius := by
  have hb0 : 0 < b.radius := by
    have hmag := Vector2D.magnitude_nonneg (a.position - b.position)
    rw [heq] at hover
    linarith
  have hπ := Real.pi_pos
  have hrae : Player.radius_after_eat a b = Real.sqrt 2 * b.radius := by
    unfold Player.radius_after_eat Player.mass
    rw [heq]
    have harg : (2 * b.radius ^ 2 * Real.pi + 2 * b.radius ^ 2 * Real.pi) / (2 * Real.pi)
        = 2 * b.radius ^ 2 := by
      field_simp
      ring
    rw [harg, Real.sqrt_mul (by norm_num) (b.radius ^ 2), Real.sqrt_sq hb0.le]
  have hs0 : 0 < Player.radius_after_eat a b := by
    rw [hrae]
    exact mul_pos (Real.sqrt_pos.mpr (by norm_num)) hb0
  have hcond : (0:ℕ) < ([a, b] : List Player).length
      ∧ (1:ℕ) < ([a, b] : List Player).length := by
    simp
  have hget0 : ([a, b] : List Player).get ⟨0, hcond.1⟩ = a := rfl
  have hget1 : ([a, b] : List Player).get ⟨1, hcond.2⟩ = b := rfl
  have hstep01 : collide_step [a, b] 0 1
      = [{ a with radius := 0 },
          { b with radius := Player.radius_after_eat a b }] := by
    simp only [collide_step, dif_pos hcond, hget0, hget1]
    rw [if_pos hid, if_pos hover, if_neg (by rw [heq]; exact lt_irrefl b.radius)]
    rfl
  have hc : (1:ℕ) < ([{ a with radius := (0:ℝ) },
        { b with radius := Player.radius_after_eat a b }] : List Player).length
      ∧ (0:ℕ) < ([{ a with radius := (0:ℝ) },
        { b with radius := Player.radius_after_eat a b }] : List Player).length := by
    simp
  have hg1 : ([{ a with radius := (0:ℝ) },
        { b with radius := Player.radius_after_eat a b }] : List Player).get ⟨1, hc.1⟩
      = { b with radius := Player.radius_after_eat a b } := rfl
  have hg0 : ([{ a with radius := (0:ℝ) },
        { b with radius := Player.radius_after_eat a b }] : List Player).get ⟨0, hc.2⟩
      = { a with radius := (0:ℝ) } := rfl
  have hstep10 : collide_step [{ a with radius := (0:ℝ) },
        { b with radius := Player.radius_after_eat a b }] 1 0
      = [{ a with radius := (0:ℝ) },
          { b with radius := Player.radius_after_eat a b }] := by
    simp only [collide_step, dif_pos hc, hg1, hg0]
    rw [if_pos (show ({ b with radius := Player.radius_after_eat a b } : Player).id
        ≠ ({ a with radius := (0:ℝ) } : Player).id from Ne.symm hid)]
    by_cases hcase : (({ b with radius := Player.radius_after_eat a b } : Player).position
          - ({ a with radius := (0:ℝ) } : Player).position).magnitude
        < ({ b with radius := Player.radius_after_eat a b } : Player).radius
          + ({ a with radius := (0:ℝ) } : Player).radius
    · rw [if_pos hcase]
      rw [if_pos (show ({ b with radius := Player.radius_after_eat a b } : Player).radius
          > ({ a with radius := (0:ℝ) } : Player).radius from hs0)]
      have hBA : Player.radius_after_eat
            { b with radius := Player.radius_after_eat a b }
            { a with radius := (0:ℝ) }
          = Player.radius_after_eat a b :=
        radius_after_eat_absorb_zero _ _ rfl hs0.le
      rw [hBA]
      rfl
    · rw [if_neg hcase]
  have hchain : check_collision [a, b]
      = collide_step (collide_step (collide_step (collide_step [a, b] 0 0) 0 1) 1 0) 1 1 := by
    have hr : List.range ([a, b] : List Player).length = [0, 1] := rfl
    unfold check_collision
    rw [hr]
    simp only [List.foldl_cons, List.foldl_nil]
  refine ⟨?_, hrae⟩
  rw [hchain, collide_step_same [a, b] 0, hstep01, hstep10, collide_step_same _ 1]

/-- Witness for C1: two fresh players (radius 10 each) sitting on top of each
other; the first one loses and is zeroed, the second takes the merged radius. -/
theorem equal_radius_tiebreak_witness :
    (Player.new 1 "a").id ≠ (Player.new 2 "b").id
    ∧ (Player.new 1 "a").radius = (Player.new 2 "b").radius
    ∧ ((Player.new 1 "a").position - (Player.new 2 "b").position).magnitude
        < (Player.new 1 "a").radius + (Player.new 2 "b").radius
    ∧ check_collision [Player.new 1 "a", Player.new 2 "b"]
        = [{ Player.new 1 "a" with radius := 0 },
            { Player.new 2 "b" with
              radius := Player.radius_after_eat (Player.new 1 "a") (Player.new 2 "b") }] := by
  have hid : (Player.new 1 "a").id ≠ (Player.new 2 "b").id := by
    simp [Player.new]
  have heq : (Player.new 1 "a").radius = (Player.new 2 "b").radius := rfl
  have hover : ((Player.new 1 "a").position - (Player.new 2 "b").position).magnitude
      < (Player.new 1 "a").radius + (Player.new 2 "b").radius := by
    have h0 : ((Player.new 1 "a").position - (Player.new 2 "b").position).magnitude = 0 := by
      simp [Player.new, Vector2D.sub_def, Vector2D.new, Vector2D.magnitude]
    rw [h0]
    norm_num [Player.new]
  exact ⟨hid, heq, hover, (equal_radius_tiebreak _ _ hid heq hover).1⟩

end AgarIo
